import Mathlib

/-!
Verification of the status-probe engine of a Minecraft server status
service written in TypeScript for Deno.  The source file consists of two
near-identical revisions: the first provides createVarInt, createPacket,
readVarInt, connectToJavaServer, pingBedrockServer, extractText,
resolveSrv and createErrorResponse; the second provides pingJava,
pingBedrock and a second resolveSrv.

Conventions of the shallow embedding:
* Byte buffers (Uint8Array values) are lists of natural numbers; buffers
  produced by the code always hold values below 256.
* JavaScript bitwise operators coerce their operands to 32-bit integers.
  Registers that the code keeps in bitwise form are tracked as naturals
  below 2 ^ 32, and asInt32 converts a final 32-bit pattern to the signed
  JavaScript number that the code returns.
* An out-of-range read on a Uint8Array gives undefined, which behaves as
  0 under bitwise operators; List.getD with default 0 models this.
* Loops carry explicit fuel that provably dominates the iteration count
  on every input the program can reach.
* Wall-clock and monotonic clock reads are passed in as parameters to the
  pure functions that consume them.
-/

/-- Signed 32-bit reinterpretation of a bit pattern held as a natural
number below 2 ^ 32; this is the number a JavaScript bitwise expression
evaluates to. -/
def asInt32 (v : Nat) : Int :=
  if v < 2 ^ 31 then (v : Int) else (v : Int) - 2 ^ 32

/-- Unsigned 32-bit coercion (the JavaScript ToUint32 conversion) for the
integer arguments the source passes to createVarInt, notably -1. -/
def toUint32 (value : Int) : Nat :=
  (value % (2 ^ 32 : Int)).toNat

/-- Loop body of createVarInt from the source:
while (true) { if ((value & 0xffffff80) === 0) { bytes.push(value); return }
bytes.push(value & 0x7f | 0x80); value >>>= 7 }.
For every value below 2 ^ 32 the loop runs at most five times, so fuel 5
is enough; fuel 0 is never reached on such inputs. -/
def createVarIntAux : Nat → Nat → List Nat
  | 0, _ => []
  | fuel + 1, value =>
    if value &&& 0xffffff80 = 0 then
      [value]
    else
      (value &&& 0x7f ||| 0x80) :: createVarIntAux fuel (value >>> 7)

/-- createVarInt(value) from the source.  The function is only ever called
with arguments whose ToUint32 image it serializes, so the embedding
applies the conversion up front. -/
def createVarInt (value : Int) : List Nat :=
  createVarIntAux 5 (toUint32 value)

/-- Loop body of readVarInt from the source:
do { byte = buffer[offset++]; value |= (byte & 0x7f) << (size++ * 7);
if (size > 5) throw } while (byte & 0x80).
The value register is an int32 in JavaScript, so the accumulated pattern
is reduced mod 2 ^ 32, and the JavaScript shift count is taken mod 32.
none models the thrown error (VarInt is too big).  The loop body runs at
most six times before throwing, so fuel 6 is enough and fuel 0 is never
reached. -/
def readVarIntGo (buffer : List Nat) : Nat → Nat → Nat → Nat → Option (Nat × Nat)
  | _, _, _, 0 => none
  | offset, value, size, fuel + 1 =>
    let byte := buffer.getD offset 0
    let value2 := (value ||| (byte &&& 0x7f) <<< (size * 7 % 32)) % 2 ^ 32
    let size2 := size + 1
    if size2 > 5 then
      none
    else if byte &&& 0x80 ≠ 0 then
      readVarIntGo buffer (offset + 1) value2 size2 fuel
    else
      some (value2, offset + 1)

/-- readVarInt(buffer, offset) from the source: returns the decoded value
as the signed JavaScript number together with the new offset, or none for
the thrown error. -/
def readVarInt (buffer : List Nat) (offset : Nat) : Option (Int × Nat) :=
  (readVarIntGo buffer offset 0 0 6).map fun p => (asInt32 p.1, p.2)

/-- createPacket(id, data) from the source: total-length prefix, then the
id varint, then the payload. -/
def createPacket (id : Int) (data : List Nat) : List Nat :=
  let idBuffer := createVarInt id
  let lengthBuffer := createVarInt ((idBuffer.length + data.length : Nat) : Int)
  lengthBuffer ++ idBuffer ++ data

/-- Index clamping used by TypedArray.prototype.slice: negative indices
count from the end, and indices are clamped to the buffer length. -/
def jsClamp (len : Nat) (i : Int) : Nat :=
  if i < 0 then (max ((len : Int) + i) 0).toNat else min i.toNat len

/-- buffer.slice(a, b) on a Uint8Array. -/
def jsSlice (l : List Nat) (a b : Int) : List Nat :=
  (l.take (jsClamp l.length b)).drop (jsClamp l.length a)

/-- buffer.slice(a) on a Uint8Array. -/
def jsSliceFrom (l : List Nat) (a : Int) : List Nat :=
  l.drop (jsClamp l.length a)

/-- Terminal result of one stream probe.  success carries the byte slice
that the code decodes as UTF-8 and feeds to JSON.parse; two equal slices
give equal parsed status records, so the record itself is represented by
its byte slice.  failure covers every rejection of the promise from
inside the read loop (a thrown VarInt error, a thrown TypeError on an
undefined status record, a JSON parse error). -/
inductive JavaOutcome where
  | success (info : List Nat)
  | failure
deriving DecidableEq

/-- Mutable state of the read loop of connectToJavaServer: the
reassembly buffer, the serverInfo variable (none while still undefined),
and the hasResolvedOrRejected flag together with the settled outcome
(none while the probe is pending). -/
structure JavaState where
  buffer : List Nat
  serverInfo : Option (List Nat)
  outcome : Option JavaOutcome
deriving DecidableEq

/-- Initial state of a stream probe: empty buffer, undefined serverInfo,
pending outcome. -/
def initState : JavaState :=
  ⟨[], none, none⟩

/-- One iteration of the read loop of connectToJavaServer for one chunk
of socket data (source lines 95-144): append the chunk, read the length
varint, and if the declared frame is fully buffered dispatch on the
packet id; packet id 0 parses the JSON status payload and consumes the
frame, packet id 1 resolves the probe (a TypeError on the undefined
serverInfo record rejects it), and any other id falls through with the
buffer left intact.  The guard on outcome models the loop condition
while (!hasResolvedOrRejected).  The ping write and the clock reads are
external effects with no influence on the byte-level state; JSON.parse
is represented by the raw byte slice it receives. -/
def processChunk (st : JavaState) (chunk : List Nat) : JavaState :=
  if st.outcome.isSome then st
  else
    let buffer := st.buffer ++ chunk
    match readVarInt buffer 0 with
    | none => { st with buffer := buffer, outcome := some .failure }
    | some (length, offset) =>
      if (buffer.length : Int) ≥ (offset : Int) + length then
        match readVarInt buffer offset with
        | none => { st with buffer := buffer, outcome := some .failure }
        | some (packetId, offset2) =>
          if packetId = 0 then
            match readVarInt buffer offset2 with
            | none => { st with buffer := buffer, outcome := some .failure }
            | some (jsonLength, offset3) =>
              let jsonResponse := jsSlice buffer (offset3 : Int) ((offset3 : Int) + jsonLength)
              { st with
                  buffer := jsSliceFrom buffer ((offset3 : Int) + jsonLength),
                  serverInfo := some jsonResponse }
          else if packetId = 1 then
            match st.serverInfo with
            | none => { st with buffer := buffer, outcome := some .failure }
            | some info => { st with buffer := buffer, outcome := some (.success info) }
          else
            { st with buffer := buffer }
      else
        { st with buffer := buffer }

/-- Firing of the 7-second deadline timer of connectToJavaServer: it
checks hasResolvedOrRejected before rejecting with the timeout error. -/
def javaTimeout (st : JavaState) : JavaState :=
  if st.outcome.isSome then st else { st with outcome := some .failure }

/-- Feeding a sequence of socket chunks through the read loop. -/
def runChunks (st : JavaState) (chunks : List (List Nat)) : JavaState :=
  chunks.foldl processChunk st

/-- Delivery of a byte sequence one byte per chunk. -/
def oneAtATime (l : List Nat) : List (List Nat) :=
  l.map fun b => [b]

/-- Wire image of a well-formed status response frame carrying the given
JSON bytes: varint(total length) ++ varint(0) ++ varint(jsonLen) ++ json,
per the wire format table of the protocol. -/
def statusFrame (json : List Nat) : List Nat :=
  let jl := createVarInt ((json.length : Nat) : Int)
  createVarInt ((1 + jl.length + json.length : Nat) : Int) ++ [0] ++ jl ++ json

/-- Wire image of a well-formed pong frame echoing an 8-byte ping
payload: varint(9) ++ varint(1) ++ payload, which coincides with
createPacket 1 payload. -/
def pongFrame (payload : List Nat) : List Nat :=
  createPacket 1 payload

/-- The parse attempt on a buffer stops and waits for more data: the
length varint decodes without error, but the buffer does not yet hold
offset + length bytes. -/
def waitsOn (b : List Nat) : Bool :=
  match readVarInt b 0 with
  | none => false
  | some (length, offset) => decide ((b.length : Int) < (offset : Int) + length)

/-- The formatted-text tree of a status description: either a bare
string, or a node with the optional attributes the flattener reads. -/
inductive FormattedText where
  | str (s : String)
  | node (color : Option String) (bold italic underlined strikethrough obfuscated : Bool)
      (text : Option String) (extra : List FormattedText)

/-- JavaScript truthiness of an optional string property (an absent
property and the empty string are falsy). -/
def jsTruthyStr (o : Option String) : Bool :=
  match o with
  | none => false
  | some s => s != ""

/-- The color-name table of getColorCode. -/
def colorCodes : List (String × String) :=
  [("black", "0"), ("dark_blue", "1"), ("dark_green", "2"), ("dark_aqua", "3"),
   ("dark_red", "4"), ("dark_purple", "5"), ("gold", "6"), ("gray", "7"),
   ("dark_gray", "8"), ("blue", "9"), ("green", "a"), ("aqua", "b"),
   ("red", "c"), ("light_purple", "d"), ("yellow", "e"), ("white", "f")]

/-- getColorCode(colorName) from the source: table lookup with fallback
code f. -/
def getColorCode (colorName : String) : String :=
  (colorCodes.lookup colorName).getD "f"

/-- The check prevItem.color || prevItem.bold || prevItem.italic ||
prevItem.underline || prevItem.strikethrough || prevItem.obfuscated from
extractText.  On a node the property underline is absent (the attribute
the flattener emits is named underlined), so that disjunct reads
undefined and is falsy: the underlined attribute is NOT consulted.  On a
bare string the lookup prevItem.bold finds the legacy method
String.prototype.bold, a function and hence truthy, so the check is true
for every string sibling. -/
def prevHasFormatting : FormattedText → Bool
  | .str _ => true
  | .node color bold italic _underlined strikethrough obfuscated _ _ =>
    jsTruthyStr color || bold || italic || strikethrough || obfuscated

mutual

/-- extractText(obj) from the source: formatting control sequences for
the attributes of the node, then the literal text, then the flattened
children. -/
def extractText : FormattedText → String
  | .str s => s
  | .node color bold italic underlined strikethrough obfuscated text extra =>
    (if jsTruthyStr color then "§" ++ getColorCode (color.getD "") else "")
      ++ (if bold then "§l" else "")
      ++ (if italic then "§o" else "")
      ++ (if underlined then "§n" else "")
      ++ (if strikethrough then "§m" else "")
      ++ (if obfuscated then "§k" else "")
      ++ text.getD ""
      ++ extractExtra none extra

/-- The loop over obj.extra: before every child except the first, emit a
reset sequence when the previous sibling passes the prevHasFormatting
check, then recurse into the child. -/
def extractExtra : Option FormattedText → List FormattedText → String
  | _, [] => ""
  | prev, item :: rest =>
    (match prev with
     | none => ""
     | some p => if prevHasFormatting p then "§r" else "")
      ++ extractText item ++ extractExtra (some item) rest

end

/-- The concrete description {extra: [{text: a, underlined: true},
{text: b}]} used to exercise the sibling reset rule. -/
def c2exampleRoot : FormattedText :=
  .node none false false false false false none
    [.node none false false true false false (some "a") [],
     .node none false false false false false (some "b") []]

/-- Result of the service-record DNS lookup as seen by resolveSrv: either
the record list, or a thrown lookup error. -/
inductive SrvResult where
  | ok (records : List (String × Nat))
  | err

/-- resolveSrv(host) from the source: any thrown lookup error is
swallowed and becomes null; an empty record list also becomes null;
otherwise the first record supplies the target name and port. -/
def resolveSrv (lookup : SrvResult) : Option (String × Nat) :=
  match lookup with
  | .err => none
  | .ok records =>
    match records with
    | [] => none
    | r :: _ => some r

/-- The endpoint-rewriting step of resolveAndConnect: when resolveSrv
returns a record its target replaces the caller-supplied host and port,
otherwise the originals are kept. -/
def chooseEndpoint (host : String) (port : Nat) (lookup : SrvResult) : String × Nat :=
  match resolveSrv lookup with
  | some (name, p) => (name, p)
  | none => (host, port)

/-- The classified error object returned by createErrorResponse. -/
structure ErrorResponse where
  success : Bool
  code : String
  message : String
deriving DecidableEq

/-- createErrorResponse(err) from the source.  The input is the code
property of the rejected error (none when the property is undefined).
The initial unknown_error object is built first and its error field is
then overwritten by the if / else-if / else chain. -/
def createErrorResponse (errCode : Option String) : ErrorResponse :=
  let errorResponse : ErrorResponse :=
    { success := false, code := "unknown_error", message := "Failed to connect to the server" }
  if errCode = some "TIMEOUT" then
    { errorResponse with code := "timeout", message := "Connection to server timed out" }
  else if errCode = some "ENOTFOUND" ∨ errCode = some "EAI_AGAIN" then
    { errorResponse with code := "invalid_domain", message := "The domain name could not be resolved" }
  else if errCode = some "ECONNREFUSED" then
    { errorResponse with code := "connection_refused", message := "Server refused the connection" }
  else
    { errorResponse with code := "offline", message := "Server appears to be offline or unreachable" }

/-- serverInfoStr.split(";") on the decoded reply tail.  The split is
performed on the byte level: the separator byte 59 never occurs inside a
multi-byte UTF-8 sequence, so splitting before decoding commutes with
decoding before splitting. -/
def splitOnSemicolon (l : List Nat) : List (List Nat) :=
  l.splitOn 59

/-- Big-endian accumulation of a byte list, as read by
DataView.getBigUint64 with littleEndian false. -/
def beUint64 (l : List Nat) : Nat :=
  l.foldl (fun acc b => acc * 256 + b) 0

/-- The echoed timestamp of an unconnected-pong reply: bytes 1 through 8,
big-endian. -/
def bedrockEchoedTime (msg : List Nat) : Nat :=
  beUint64 ((msg.drop 1).take 8)

/-- readBedrockResponse(buffer) from the first revision: a first byte
other than 0x1c throws (Invalid packet ID); otherwise the reply tail from
byte offset 35 is split on semicolons into the positional fields.  The
record constructor merely relabels the fields positionally, so the field
list represents the record. -/
def readBedrockResponse (buffer : List Nat) : Option (List (List Nat)) :=
  if buffer.getD 0 0 ≠ 0x1c then none
  else some (splitOnSemicolon (buffer.drop 35))

/-- Terminal result of one datagram probe. -/
inductive BedrockOutcome where
  | success (fields : List (List Nat)) (latency : Int)
  | failure
deriving DecidableEq

/-- The hasResolvedOrRejected flag of pingBedrockServer together with the
settled outcome. -/
structure BedrockState where
  outcome : Option BedrockOutcome
deriving DecidableEq

/-- Arrival of a datagram reply in pingBedrockServer (first revision).
The handler is guarded by hasResolvedOrRejected.  Inside the try block,
readBedrockResponse may throw on a bad packet id; on the success path the
source then evaluates new DataView(msg) where msg is a Uint8Array, and
the DataView constructor requires an ArrayBuffer, so a TypeError is
thrown and caught: every receive in this revision rejects. -/
def bedrockReceive (st : BedrockState) (msg : List Nat) : BedrockState :=
  if st.outcome.isSome then st
  else
    match readBedrockResponse msg with
    | none => ⟨some .failure⟩
    | some _fields => ⟨some .failure⟩

/-- Firing of the 7-second deadline timer of pingBedrockServer, guarded
by hasResolvedOrRejected. -/
def bedrockTimeout (st : BedrockState) : BedrockState :=
  if st.outcome.isSome then st else ⟨some .failure⟩

/-- The receive path of pingBedrock from the second revision: check the
packet id, split the tail from byte 35, and compute
latency = Date.now() - Number(new DataView(msg.buffer).getBigUint64(1)),
the arrival wall-clock time minus the timestamp echoed inside the reply.
now is the Date.now() reading at arrival. -/
def pingBedrockParse (now : Int) (msg : List Nat) : Option (List (List Nat) × Int) :=
  if msg.getD 0 0 ≠ 0x1c then none
  else some (splitOnSemicolon (msg.drop 35), now - (bedrockEchoedTime msg : Int))

/-- Math.round on an exact rational: floor(x + 1/2), ties toward positive
infinity, matching the JavaScript specification on the reals. -/
def jsRound (q : ℚ) : Int :=
  ⌊q + 1 / 2⌋

/-- The latency computed on the pong path of connectToJavaServer:
Math.round(performance.now() - Number(pingStartTime)), with pingStart the
monotonic reading taken when the ping frame was written and now the
reading taken when the pong frame completed. -/
def javaLatency (pingStart now : ℚ) : Int :=
  jsRound (now - pingStart)

/-- The handshake packet written by pingJava in the second revision:
varint(0x00) ++ varint(handshakePayload.length) ++ handshakePayload. -/
def pingJavaHandshakePacket (handshakePayload : List Nat) : List Nat :=
  createVarInt 0 ++ createVarInt ((handshakePayload.length : Nat) : Int) ++ handshakePayload

/-- The status request written by pingJava in the second revision:
varint(0x00) ++ varint(0). -/
def pingJavaStatusRequestPacket : List Nat :=
  createVarInt 0 ++ createVarInt 0

/-- The ping packet written by pingJava in the second revision:
varint(0x01) ++ varint(payload.length) ++ payload with the fixed payload
1 through 8. -/
def pingJavaPingPacket : List Nat :=
  createVarInt 1 ++ createVarInt 8 ++ [1, 2, 3, 4, 5, 6, 7, 8]

/-! ## Bit-level helper lemmas -/

theorem lor_shiftLeft_eq_add {a : Nat} (b k : Nat) (h : a < 2 ^ k) :
    a ||| b <<< k = a + b * 2 ^ k := by
  rw [Nat.shiftLeft_eq, Nat.lor_comm, Nat.mul_comm b (2 ^ k),
    ← Nat.mul_add_lt_is_or h (a := b)]
  omega

theorem and_127_eq_mod (x : Nat) : x &&& 0x7f = x % 128 := by
  have h : (0x7f : Nat) = 2 ^ 7 - 1 := by norm_num
  rw [h, Nat.and_pow_two_sub_one_eq_mod]

theorem or_128_eq_add {x : Nat} (h : x < 128) : x ||| 0x80 = x + 128 := by
  have h2 : x < 2 ^ 7 := lt_of_lt_of_eq h (by norm_num)
  have hl := lor_shiftLeft_eq_add (a := x) 1 7 h2
  rw [Nat.shiftLeft_eq] at hl
  norm_num at hl
  exact hl

theorem and_128_eq_zero {x : Nat} (h : x < 128) : x &&& 0x80 = 0 := by
  apply Nat.eq_of_testBit_eq
  intro i
  rw [Nat.testBit_and, Nat.zero_testBit]
  rcases eq_or_ne i 7 with rfl | hne
  · have hx : Nat.testBit x 7 = false :=
      Nat.testBit_lt_two_pow (lt_of_lt_of_eq h (by norm_num))
    simp [hx]
  · have h7 : Nat.testBit 0x80 i = false := by
      have he : (0x80 : Nat) = 2 ^ 7 := by norm_num
      rw [he, Nat.testBit_two_pow]
      have h7i : (7 : Nat) ≠ i := fun hc => hne hc.symm
      simp [h7i]
    simp [h7]

theorem and_128_ne_zero {x : Nat} (h1 : 128 ≤ x) (h2 : x < 256) : x &&& 0x80 ≠ 0 := by
  intro hc
  have h7 : (2 : Nat) ^ 7 = 128 := by norm_num
  have hx7 : Nat.testBit x 7 = true := by
    rw [Nat.testBit_to_div_mod, h7]
    simp only [decide_eq_true_eq]
    omega
  have h127 : Nat.testBit (0x80 : Nat) 7 = true := by
    have he : (0x80 : Nat) = 2 ^ 7 := by norm_num
    rw [he]; exact Nat.testBit_two_pow_self
  have hz : Nat.testBit (x &&& 0x80) 7 = false := by rw [hc]; simp
  rw [Nat.testBit_and, hx7, h127] at hz
  simp at hz

theorem mask_eq_zero_iff {v : Nat} (hv : v < 2 ^ 32) :
    v &&& 0xffffff80 = 0 ↔ v < 128 := by
  have hC : (0xffffff80 : Nat) = (2 ^ 25 - 1) <<< 7 := by decide
  constructor
  · intro h
    have hlt : v < 2 ^ 7 := by
      apply Nat.lt_pow_two_of_testBit
      intro i hi
      by_cases h32 : i < 32
      · have hz : Nat.testBit (v &&& 0xffffff80) i = false := by rw [h]; simp
        rw [Nat.testBit_and] at hz
        have hCbit : Nat.testBit 0xffffff80 i = true := by
          rw [hC, Nat.testBit_shiftLeft, Nat.testBit_two_pow_sub_one]
          simp only [ge_iff_le, Bool.and_eq_true, decide_eq_true_eq]
          omega
        simpa [hCbit] using hz
      · exact Nat.testBit_lt_two_pow
          (lt_of_lt_of_le hv (Nat.pow_le_pow_right (by norm_num) (by omega)))
    exact lt_of_lt_of_eq hlt (by norm_num)
  · intro h
    apply Nat.eq_of_testBit_eq
    intro i
    rw [Nat.testBit_and, Nat.zero_testBit]
    by_cases hi : i < 7
    · have hCbit : Nat.testBit 0xffffff80 i = false := by
        rw [hC, Nat.testBit_shiftLeft]
        have : ¬ (i ≥ 7) := by omega
        simp [this]
      simp [hCbit]
    · have hvbit : Nat.testBit v i = false :=
        Nat.testBit_lt_two_pow
          (lt_of_lt_of_le (lt_of_lt_of_eq h (by norm_num : (128 : Nat) = 2 ^ 7))
            (Nat.pow_le_pow_right (by norm_num) (by omega)))
      simp [hvbit]

theorem sum_lt_two_pow_32 {v value s : Nat} (hs : 7 * s ≤ 28)
    (h1 : v * 2 ^ (7 * s) < 2 ^ 32) (h2 : value < 2 ^ (7 * s)) :
    value + v * 2 ^ (7 * s) < 2 ^ 32 := by
  have hv : v < 2 ^ (32 - 7 * s) := by
    by_contra hc
    push_neg at hc
    have hm : 2 ^ (32 - 7 * s) * 2 ^ (7 * s) ≤ v * 2 ^ (7 * s) :=
      Nat.mul_le_mul_right _ hc
    rw [← Nat.pow_add] at hm
    have he : 32 - 7 * s + 7 * s = 32 := by omega
    rw [he] at hm
    omega
  calc value + v * 2 ^ (7 * s) < (1 + v) * 2 ^ (7 * s) := by
        rw [Nat.add_mul, Nat.one_mul]; omega
    _ ≤ 2 ^ (32 - 7 * s) * 2 ^ (7 * s) := Nat.mul_le_mul_right _ (by omega)
    _ = 2 ^ 32 := by rw [← Nat.pow_add]; congr 1; omega

/-! ## Structure of the varint encoder -/

theorem createVarIntAux_succ (fuel v : Nat) (hv : v < 2 ^ 32) :
    createVarIntAux (fuel + 1) v =
      if v < 128 then [v] else (v % 128 + 128) :: createVarIntAux fuel (v / 128) := by
  by_cases h : v < 128
  · rw [if_pos h]
    simp only [createVarIntAux]
    rw [if_pos ((mask_eq_zero_iff hv).mpr h)]
  · rw [if_neg h]
    simp only [createVarIntAux]
    rw [if_neg (fun hc => h ((mask_eq_zero_iff hv).mp hc))]
    congr 1
    · rw [and_127_eq_mod, or_128_eq_add (Nat.mod_lt _ (by norm_num))]
    · rw [Nat.shiftRight_eq_div_pow]

theorem createVarIntAux_length_le (k : Nat) :
    ∀ (fuel v : Nat), v < 2 ^ 32 → v < 128 ^ (k + 1) → k + 1 ≤ fuel →
      1 ≤ (createVarIntAux fuel v).length ∧ (createVarIntAux fuel v).length ≤ k + 1 := by
  induction k with
  | zero =>
    intro fuel v hv32 hv hf
    obtain ⟨f, rfl⟩ : ∃ f, fuel = f + 1 := ⟨fuel - 1, by omega⟩
    rw [createVarIntAux_succ f v hv32]
    have h128 : v < 128 := by norm_num at hv; omega
    rw [if_pos h128]
    simp
  | succ k ih =>
    intro fuel v hv32 hv hf
    obtain ⟨f, rfl⟩ : ∃ f, fuel = f + 1 := ⟨fuel - 1, by omega⟩
    rw [createVarIntAux_succ f v hv32]
    by_cases h : v < 128
    · rw [if_pos h]; simp
    · rw [if_neg h]
      have hd32 : v / 128 < 2 ^ 32 := lt_of_le_of_lt (Nat.div_le_self _ _) hv32
      have hdk : v / 128 < 128 ^ (k + 1) := by
        rw [Nat.div_lt_iff_lt_mul (by norm_num)]
        calc v < 128 ^ (k + 1 + 1) := hv
          _ = 128 ^ (k + 1) * 128 := by ring
      have hih := ih f (v / 128) hd32 hdk (by omega)
      simp only [List.length_cons]
      omega

/-! ## Decoding shifts across a buffer prefix -/

theorem readVarIntGo_append (pre buf : List Nat) :
    ∀ (fuel offset value size : Nat),
      readVarIntGo (pre ++ buf) (pre.length + offset) value size fuel
        = (readVarIntGo buf offset value size fuel).map fun p => (p.1, pre.length + p.2) := by
  intro fuel
  induction fuel with
  | zero => intro offset value size; rfl
  | succ fuel ih =>
    intro offset value size
    have hb : (pre ++ buf).getD (pre.length + offset) 0 = buf.getD offset 0 := by
      rw [List.getD_append_right _ _ _ _ (by omega)]
      congr 1
      omega
    simp only [readVarIntGo, hb]
    by_cases h5 : size + 1 > 5
    · rw [if_pos h5, if_pos h5]; rfl
    · rw [if_neg h5, if_neg h5]
      by_cases hc : buf.getD offset 0 &&& 0x80 ≠ 0
      · rw [if_pos hc, if_pos hc]
        have hr := ih (offset + 1)
          ((value ||| (buf.getD offset 0 &&& 0x7f) <<< (size * 7 % 32)) % 2 ^ 32) (size + 1)
        rw [← Nat.add_assoc] at hr
        exact hr
      · rw [if_neg hc, if_neg hc]
        simp [Nat.add_assoc]

theorem readVarInt_append (pre buf : List Nat) (offset : Nat) :
    readVarInt (pre ++ buf) (pre.length + offset)
      = (readVarInt buf offset).map fun p => (p.1, pre.length + p.2) := by
  unfold readVarInt
  rw [readVarIntGo_append]
  cases readVarIntGo buf offset 0 0 6 <;> rfl

/-! ## Decoding an encoded value -/

theorem readVarIntGo_last_byte (v : Nat) (rest : List Nat) (value size g : Nat)
    (h128 : v < 128)
    (hv2 : v * 2 ^ (7 * size) < 2 ^ 32)
    (hval : value < 2 ^ (7 * size))
    (hsize : size ≤ 4) :
    readVarIntGo (v :: rest) 0 value size (g + 1)
      = some (value + v * 2 ^ (7 * size), 1) := by
  simp only [readVarIntGo, List.getD_cons_zero]
  rw [if_neg (by omega : ¬ size + 1 > 5),
    if_neg (not_ne_iff.mpr (and_128_eq_zero h128))]
  have hmod : v &&& 0x7f = v := by rw [and_127_eq_mod, Nat.mod_eq_of_lt h128]
  have hshift : size * 7 % 32 = size * 7 := Nat.mod_eq_of_lt (by omega)
  rw [hmod, hshift, lor_shiftLeft_eq_add v (size * 7)
    (by rw [Nat.mul_comm] at hval; exact hval)]
  rw [Nat.mul_comm size 7]
  rw [Nat.mod_eq_of_lt (sum_lt_two_pow_32 (by omega) hv2 hval)]

theorem readVarIntGo_cont_byte (b : Nat) (tail : List Nat) (value size g : Nat)
    (hb1 : 128 ≤ b) (hb2 : b < 256)
    (hval : value < 2 ^ (7 * size))
    (hsize : size ≤ 3) :
    readVarIntGo (b :: tail) 0 value size (g + 1)
      = (readVarIntGo tail 0 (value + b % 128 * 2 ^ (7 * size)) (size + 1) g).map
          fun p => (p.1, 1 + p.2) := by
  simp only [readVarIntGo, List.getD_cons_zero]
  rw [if_neg (by omega : ¬ size + 1 > 5), if_pos (and_128_ne_zero hb1 hb2)]
  have hshift : size * 7 % 32 = size * 7 := Nat.mod_eq_of_lt (by omega)
  have hv2 : (value ||| (b &&& 0x7f) <<< (size * 7 % 32)) % 2 ^ 32
      = value + b % 128 * 2 ^ (7 * size) := by
    rw [and_127_eq_mod, hshift, lor_shiftLeft_eq_add (b % 128) (size * 7)
      (by rw [Nat.mul_comm] at hval; exact hval)]
    rw [Nat.mul_comm size 7]
    apply Nat.mod_eq_of_lt
    have h1 : b % 128 * 2 ^ (7 * size) ≤ 127 * 2 ^ (7 * size) :=
      Nat.mul_le_mul_right _ (by omega)
    have h3 : (128 : Nat) * 2 ^ (7 * size) = 2 ^ (7 * size + 7) := by
      rw [Nat.pow_add]; ring
    have h4 : (2 : Nat) ^ (7 * size + 7) ≤ 2 ^ 32 :=
      Nat.pow_le_pow_right (by norm_num) (by omega)
    omega
  rw [hv2]
  have hr := readVarIntGo_append [b] tail g 0 (value + b % 128 * 2 ^ (7 * size)) (size + 1)
  simpa using hr

theorem readVarIntGo_encode (af : Nat) :
    ∀ (v : Nat), v < 2 ^ 32 → v < 128 ^ (af + 1) →
    ∀ (rest : List Nat) (value size gofuel : Nat),
      v * 2 ^ (7 * size) < 2 ^ 32 →
      value < 2 ^ (7 * size) →
      (createVarIntAux (af + 1) v).length + size ≤ 5 →
      (createVarIntAux (af + 1) v).length ≤ gofuel →
      readVarIntGo (createVarIntAux (af + 1) v ++ rest) 0 value size gofuel
        = some (value + v * 2 ^ (7 * size), (createVarIntAux (af + 1) v).length) := by
  induction af with
  | zero =>
    intro v hv32 hv rest value size gofuel hv2 hval hlen hfuel
    have h128 : v < 128 := by norm_num at hv; omega
    rw [createVarIntAux_succ 0 v hv32, if_pos h128] at hlen hfuel ⊢
    simp only [List.length_cons, List.length_nil] at hlen hfuel ⊢
    obtain ⟨g, rfl⟩ : ∃ g, gofuel = g + 1 := ⟨gofuel - 1, by omega⟩
    simp only [List.cons_append, List.nil_append]
    rw [readVarIntGo_last_byte v rest value size g h128 hv2 hval (by omega)]
  | succ af ih =>
    intro v hv32 hv rest value size gofuel hv2 hval hlen hfuel
    by_cases h128 : v < 128
    · rw [createVarIntAux_succ (af + 1) v hv32, if_pos h128] at hlen hfuel ⊢
      simp only [List.length_cons, List.length_nil] at hlen hfuel ⊢
      obtain ⟨g, rfl⟩ : ∃ g, gofuel = g + 1 := ⟨gofuel - 1, by omega⟩
      simp only [List.cons_append, List.nil_append]
      rw [readVarIntGo_last_byte v rest value size g h128 hv2 hval (by omega)]
    · rw [createVarIntAux_succ (af + 1) v hv32, if_neg h128] at hlen hfuel ⊢
      simp only [List.length_cons] at hlen hfuel ⊢
      have hd32 : v / 128 < 2 ^ 32 := lt_of_le_of_lt (Nat.div_le_self _ _) hv32
      have hdk : v / 128 < 128 ^ (af + 1) := by
        rw [Nat.div_lt_iff_lt_mul (by norm_num)]
        calc v < 128 ^ (af + 1 + 1) := hv
          _ = 128 ^ (af + 1) * 128 := by ring
      have hlow := (createVarIntAux_length_le af (af + 1) (v / 128) hd32 hdk (le_refl _)).1
      obtain ⟨g, rfl⟩ : ∃ g, gofuel = g + 1 := ⟨gofuel - 1, by omega⟩
      simp only [List.cons_append]
      rw [readVarIntGo_cont_byte (v % 128 + 128) (createVarIntAux (af + 1) (v / 128) ++ rest)
        value size g (by omega) (by omega) hval (by omega)]
      have hmod : (v % 128 + 128) % 128 = v % 128 := by omega
      rw [hmod]
      have hval2 : value + v % 128 * 2 ^ (7 * size) < 2 ^ (7 * (size + 1)) := by
        have h1 : v % 128 * 2 ^ (7 * size) ≤ 127 * 2 ^ (7 * size) :=
          Nat.mul_le_mul_right _ (by omega)
        have h3 : (2 : Nat) ^ (7 * (size + 1)) = 128 * 2 ^ (7 * size) := by
          rw [show 7 * (size + 1) = 7 * size + 7 by ring, Nat.pow_add]; ring
        omega
      have hv2' : v / 128 * 2 ^ (7 * (size + 1)) < 2 ^ 32 := by
        have hle : v / 128 * 2 ^ (7 * (size + 1)) ≤ v * 2 ^ (7 * size) := by
          rw [show 7 * (size + 1) = 7 * size + 7 by ring, Nat.pow_add]
          calc v / 128 * (2 ^ (7 * size) * 2 ^ 7)
              = v / 128 * 2 ^ 7 * 2 ^ (7 * size) := by ring
            _ ≤ v * 2 ^ (7 * size) := by
                apply Nat.mul_le_mul_right
                have := Nat.div_mul_le_self v 128
                norm_num
                omega
        omega
      rw [ih (v / 128) hd32 hdk rest (value + v % 128 * 2 ^ (7 * size)) (size + 1) g
        hv2' hval2 (by omega) (by omega)]
      simp only [Option.map_some']
      have harith : value + v % 128 * 2 ^ (7 * size) + v / 128 * 2 ^ (7 * (size + 1))
          = value + v * 2 ^ (7 * size) := by
        rw [show 7 * (size + 1) = 7 * size + 7 by ring, Nat.pow_add]
        conv_rhs => rw [← Nat.mod_add_div v 128]
        ring_nf
      rw [harith, Nat.add_comm 1 (createVarIntAux (af + 1) (v / 128)).length]

theorem readVarInt_encode (v : Nat) (hv : v < 2 ^ 32) (rest : List Nat) :
    readVarInt (createVarIntAux 5 v ++ rest) 0
      = some (asInt32 v, (createVarIntAux 5 v).length) := by
  have h5 : v < 128 ^ 5 := lt_of_lt_of_le hv (by norm_num)
  have hlen := createVarIntAux_length_le 4 5 v hv h5 (le_refl _)
  unfold readVarInt
  have henc : readVarIntGo (createVarIntAux 5 v ++ rest) 0 0 0 6
      = some (0 + v * 2 ^ (7 * 0), (createVarIntAux 5 v).length) :=
    readVarIntGo_encode 4 v hv h5 rest 0 0 6 (by simpa using hv) (by norm_num)
      (by show (createVarIntAux 5 v).length + 0 ≤ 5; omega)
      (by show (createVarIntAux 5 v).length ≤ 6; omega)
  rw [henc]
  simp

/-! ## Decoding partial prefixes -/

theorem asInt32_small {v : Nat} (h : v < 2 ^ 31) : asInt32 v = v := by
  unfold asInt32
  rw [if_pos h]

theorem readVarInt_single (b : Nat) (hb : b < 128) (rest : List Nat) :
    readVarInt (b :: rest) 0 = some ((b : Int), 1) := by
  have haux : createVarIntAux 5 b = [b] := by
    have h := createVarIntAux_succ 4 b (by omega)
    rw [if_pos hb] at h
    exact h
  have henc := readVarInt_encode b (by omega) rest
  rw [haux] at henc
  simpa [asInt32_small (show b < 2 ^ 31 by omega)] using henc

theorem readVarInt_oob (b : List Nat) (o : Nat) (h : b.length ≤ o) :
    readVarInt b o = some (0, o + 1) := by
  unfold readVarInt
  have h6 : readVarIntGo b o 0 0 6 = some (0, o + 1) := by
    show readVarIntGo b o 0 0 (5 + 1) = some (0, o + 1)
    simp only [readVarIntGo]
    rw [List.getD_eq_default _ _ h]
    norm_num
  rw [h6]
  simp [asInt32]

theorem createVarIntAux_take_bytes :
    ∀ (fuel v k : Nat), v < 2 ^ 32 → k < (createVarIntAux fuel v).length →
      ∀ x ∈ (createVarIntAux fuel v).take k, 128 ≤ x ∧ x < 256 := by
  intro fuel
  induction fuel with
  | zero =>
    intro v k hv hk
    simp [createVarIntAux] at hk
  | succ fuel ih =>
    intro v k hv hk x hx
    rw [createVarIntAux_succ fuel v hv] at hk hx
    by_cases h : v < 128
    · rw [if_pos h] at hk hx
      simp only [List.length_cons, List.length_nil] at hk
      cases k with
      | zero => simp at hx
      | succ k' => omega
    · rw [if_neg h] at hk hx
      cases k with
      | zero => simp at hx
      | succ k' =>
        simp only [List.take_succ_cons, List.mem_cons] at hx
        rcases hx with rfl | hx
        · constructor <;> omega
        · exact ih (v / 128) k' (lt_of_le_of_lt (Nat.div_le_self _ _) hv)
            (by simpa using hk) x hx

theorem readVarIntGo_allcont (b : List Nat) :
    ∀ (value size g : Nat),
      (∀ x ∈ b, 128 ≤ x ∧ x < 256) →
      value < 2 ^ (7 * size) →
      b.length + size ≤ 4 →
      b.length < g →
      ∃ w, w < 2 ^ (7 * (size + b.length)) ∧
        readVarIntGo b 0 value size g = some (w, b.length + 1) := by
  induction b with
  | nil =>
    intro value size g hb hval hlen hg
    obtain ⟨g', rfl⟩ : ∃ g', g = g' + 1 := ⟨g - 1, by omega⟩
    refine ⟨value, by simpa using hval, ?_⟩
    have hval32 : value < 2 ^ 32 :=
      lt_of_lt_of_le hval (Nat.pow_le_pow_right (by norm_num) (by omega))
    have hm : value % 2 ^ 32 = value := Nat.mod_eq_of_lt hval32
    simp only [readVarIntGo, List.getD_nil, List.length_nil]
    rw [if_neg (by omega : ¬ size + 1 > 5)]
    norm_num [hm]
    omega
  | cons x b' ih =>
    intro value size g hb hval hlen hg
    obtain ⟨g', rfl⟩ : ∃ g', g = g' + 1 := ⟨g - 1, by omega⟩
    have hx := hb x (List.mem_cons_self x b')
    simp only [List.length_cons] at hlen hg
    have hval2 : value + x % 128 * 2 ^ (7 * size) < 2 ^ (7 * (size + 1)) := by
      have h1 : x % 128 * 2 ^ (7 * size) ≤ 127 * 2 ^ (7 * size) :=
        Nat.mul_le_mul_right _ (by omega)
      have h3 : (2 : Nat) ^ (7 * (size + 1)) = 128 * 2 ^ (7 * size) := by
        rw [show 7 * (size + 1) = 7 * size + 7 by ring, Nat.pow_add]; ring
      omega
    obtain ⟨w, hw, heq⟩ := ih (value + x % 128 * 2 ^ (7 * size)) (size + 1) g'
      (fun y hy => hb y (List.mem_cons_of_mem x hy)) hval2 (by omega) (by omega)
    refine ⟨w, ?_, ?_⟩
    · have he : 7 * (size + (x :: b').length) = 7 * (size + 1 + b'.length) := by
        simp only [List.length_cons]
        ring
      rw [he]
      exact hw
    · rw [readVarIntGo_cont_byte x b' value size g' hx.1 hx.2 hval (by omega), heq]
      simp only [Option.map_some', List.length_cons]
      congr 2
      omega

/-! ## Wire frames and the waiting condition -/

theorem toUint32_coe (n : Nat) (h : n < 2 ^ 32) : toUint32 ((n : Nat) : Int) = n := by
  unfold toUint32
  omega

theorem waitsOn_of_readVarInt {b : List Nat} {v : Int} {o : Nat}
    (hr : readVarInt b 0 = some (v, o)) (hlt : (b.length : Int) < (o : Int) + v) :
    waitsOn b = true := by
  unfold waitsOn
  rw [hr]
  simpa using hlt

theorem statusFrame_eq (json : List Nat) (hj : json.length < 2 ^ 24) :
    statusFrame json
      = createVarIntAux 5 (1 + (createVarIntAux 5 json.length).length + json.length)
          ++ ([0] ++ (createVarIntAux 5 json.length ++ json)) := by
  have hjl := createVarIntAux_length_le 4 5 json.length (by omega)
    (by norm_num; omega) (le_refl _)
  simp only [statusFrame, createVarInt]
  rw [toUint32_coe json.length (by omega)]
  rw [toUint32_coe (1 + (createVarIntAux 5 json.length).length + json.length) (by omega)]
  simp [List.append_assoc]

theorem statusFrame_L_lt (json : List Nat) (hj : json.length < 2 ^ 24) :
    1 + (createVarIntAux 5 json.length).length + json.length < 2 ^ 28 := by
  have hjl := createVarIntAux_length_le 4 5 json.length (by omega)
    (by norm_num; omega) (le_refl _)
  omega

theorem statusFrame_length (json : List Nat) (hj : json.length < 2 ^ 24) :
    (statusFrame json).length
      = (createVarIntAux 5 (1 + (createVarIntAux 5 json.length).length + json.length)).length
          + (1 + (createVarIntAux 5 json.length).length + json.length) := by
  rw [statusFrame_eq json hj]
  simp [List.length_append]
  omega

theorem statusFrame_take_waits (json : List Nat) (hj : json.length < 2 ^ 24) :
    ∀ m, m < (statusFrame json).length → waitsOn ((statusFrame json).take m) = true := by
  intro m hm
  have hjl := createVarIntAux_length_le 4 5 json.length (by omega)
    (by norm_num; omega) (le_refl _)
  have hL28 := statusFrame_L_lt json hj
  have hL32 : 1 + (createVarIntAux 5 json.length).length + json.length < 2 ^ 32 := by omega
  have hvLlen := createVarIntAux_length_le 3 5
    (1 + (createVarIntAux 5 json.length).length + json.length) hL32
    (by norm_num; omega) (by norm_num)
  have hslen := statusFrame_length json hj
  rw [statusFrame_eq json hj]
  rw [statusFrame_length json hj] at hm
  by_cases hcase : m <
      (createVarIntAux 5 (1 + (createVarIntAux 5 json.length).length + json.length)).length
  · rw [List.take_append_of_le_length (by omega)]
    have hbytes := createVarIntAux_take_bytes 5
      (1 + (createVarIntAux 5 json.length).length + json.length) m hL32 hcase
    have hblen : ((createVarIntAux 5
        (1 + (createVarIntAux 5 json.length).length + json.length)).take m).length = m := by
      rw [List.length_take]
      omega
    obtain ⟨w, hw, heq⟩ := readVarIntGo_allcont
      ((createVarIntAux 5 (1 + (createVarIntAux 5 json.length).length + json.length)).take m)
      0 0 6 hbytes (by norm_num) (by omega) (by omega)
    rw [hblen] at heq hw
    have hw31 : w < 2 ^ 31 :=
      lt_of_lt_of_le hw (Nat.pow_le_pow_right (by norm_num) (by omega))
    have hr : readVarInt ((createVarIntAux 5
        (1 + (createVarIntAux 5 json.length).length + json.length)).take m) 0
        = some ((w : Int), m + 1) := by
      unfold readVarInt
      rw [heq]
      simp [asInt32_small hw31]
    apply waitsOn_of_readVarInt hr
    rw [hblen]
    push_cast
    omega
  · rw [List.take_append_eq_append_take, List.take_of_length_le (by omega)]
    have hr := readVarInt_encode (1 + (createVarIntAux 5 json.length).length + json.length)
      hL32 (([0] ++ (createVarIntAux 5 json.length ++ json)).take (m -
        (createVarIntAux 5 (1 + (createVarIntAux 5 json.length).length + json.length)).length))
    rw [asInt32_small (by omega)] at hr
    apply waitsOn_of_readVarInt hr
    have htail : ([0] ++ (createVarIntAux 5 json.length ++ json)).length
        = 1 + (createVarIntAux 5 json.length).length + json.length := by
      simp [List.length_append]
      omega
    rw [List.length_append, List.length_take, htail]
    push_cast
    omega

theorem pongFrame_eq (payload : List Nat) (hp : payload.length = 8) :
    pongFrame payload = 9 :: 1 :: payload := by
  simp only [pongFrame, createPacket]
  rw [hp]
  rfl

theorem pongFrame_take_waits (payload : List Nat) (hp : payload.length = 8) :
    ∀ m, m < (pongFrame payload).length → waitsOn ((pongFrame payload).take m) = true := by
  intro m hm
  rw [pongFrame_eq payload hp] at hm ⊢
  simp only [List.length_cons, hp] at hm
  cases m with
  | zero =>
    rw [List.take_zero]
    decide
  | succ m' =>
    rw [List.take_succ_cons]
    have hr := readVarInt_single 9 (by norm_num) ((1 :: payload).take m')
    apply waitsOn_of_readVarInt hr
    have hlen : (9 :: (1 :: payload).take m').length = m' + 1 := by
      simp [List.length_take, hp]
      omega
    rw [hlen]
    push_cast
    omega

/-! ## Behavior of one read-loop iteration -/

theorem jsClamp_coe (len n : Nat) (h : n ≤ len) : jsClamp len ((n : Nat) : Int) = n := by
  unfold jsClamp
  rw [if_neg (by omega)]
  omega

theorem jsSlice_suffix (l pre post : List Nat) (a b : Int)
    (hl : l = pre ++ post)
    (ha : a = ((pre.length : Nat) : Int)) (hb2 : b = ((l.length : Nat) : Int)) :
    jsSlice l a b = post := by
  subst hl ha hb2
  unfold jsSlice
  rw [jsClamp_coe _ _ (by simp), jsClamp_coe _ _ (le_refl _), List.take_length,
    List.drop_left]

theorem jsSliceFrom_nil (l : List Nat) (a : Int) (ha : a = ((l.length : Nat) : Int)) :
    jsSliceFrom l a = [] := by
  subst ha
  unfold jsSliceFrom
  rw [jsClamp_coe _ _ (le_refl _), List.drop_length]

theorem processChunk_wait (st : JavaState) (chunk : List Nat)
    (h0 : st.outcome = none) (hw : waitsOn (st.buffer ++ chunk) = true) :
    processChunk st chunk = { st with buffer := st.buffer ++ chunk } := by
  obtain ⟨sbuf, sinfo, sout⟩ := st
  simp only at h0 hw
  subst h0
  unfold waitsOn at hw
  simp only [processChunk, Option.isSome_none, Bool.false_eq_true, if_false]
  cases hrv : readVarInt (sbuf ++ chunk) 0 with
  | none => rw [hrv] at hw; simp at hw
  | some p =>
    obtain ⟨L, off⟩ := p
    rw [hrv] at hw
    simp only [decide_eq_true_eq] at hw
    simp only [hrv]
    rw [if_neg (by omega)]

theorem processChunk_statusFrame (json : List Nat) (hj : json.length < 2 ^ 24)
    (st : JavaState) (chunk : List Nat)
    (h0 : st.outcome = none) (hb : st.buffer ++ chunk = statusFrame json) :
    processChunk st chunk = ⟨[], some json, none⟩ := by
  have hjl := createVarIntAux_length_le 4 5 json.length (by omega)
    (by norm_num; omega) (le_refl _)
  have hL28 := statusFrame_L_lt json hj
  have hL32 : 1 + (createVarIntAux 5 json.length).length + json.length < 2 ^ 32 := by omega
  have hslen := statusFrame_length json hj
  have hr1 : readVarInt (statusFrame json) 0
      = some (((1 + (createVarIntAux 5 json.length).length + json.length : Nat) : Int),
        (createVarIntAux 5 (1 + (createVarIntAux 5 json.length).length + json.length)).length) := by
    rw [statusFrame_eq json hj, readVarInt_encode _ hL32 _, asInt32_small (by omega)]
  have hr2 : readVarInt (statusFrame json)
      ((createVarIntAux 5 (1 + (createVarIntAux 5 json.length).length + json.length)).length)
      = some ((0 : Int),
        (createVarIntAux 5 (1 + (createVarIntAux 5 json.length).length + json.length)).length
          + 1) := by
    have ha := readVarInt_append
      (createVarIntAux 5 (1 + (createVarIntAux 5 json.length).length + json.length))
      ([0] ++ (createVarIntAux 5 json.length ++ json)) 0
    rw [Nat.add_zero] at ha
    rw [statusFrame_eq json hj, ha]
    have hs := readVarInt_single 0 (by norm_num) (createVarIntAux 5 json.length ++ json)
    simp only [List.cons_append, List.nil_append] at hs ⊢
    rw [hs]
    simp
  have hr3 : readVarInt (statusFrame json)
      ((createVarIntAux 5 (1 + (createVarIntAux 5 json.length).length + json.length)).length
        + 1)
      = some (((json.length : Nat) : Int),
        (createVarIntAux 5 (1 + (createVarIntAux 5 json.length).length + json.length)).length
          + 1 + (createVarIntAux 5 json.length).length) := by
    have ha := readVarInt_append
      (createVarIntAux 5 (1 + (createVarIntAux 5 json.length).length + json.length) ++ [0])
      (createVarIntAux 5 json.length ++ json) 0
    rw [Nat.add_zero] at ha
    simp only [List.length_append, List.length_cons, List.length_nil] at ha
    have hassoc : statusFrame json
        = (createVarIntAux 5 (1 + (createVarIntAux 5 json.length).length + json.length) ++ [0])
          ++ (createVarIntAux 5 json.length ++ json) := by
      rw [statusFrame_eq json hj]
      simp [List.append_assoc]
    rw [hassoc, ha, readVarInt_encode json.length (by omega) json, asInt32_small (by omega)]
    simp
  obtain ⟨sbuf, sinfo, sout⟩ := st
  simp only at h0 hb
  subst h0
  simp only [processChunk, Option.isSome_none, Bool.false_eq_true, if_false, hb]
  simp only [hr1]
  rw [if_pos (by push_cast; omega)]
  simp only [hr2]
  simp only [if_true]
  simp only [hr3]
  have hsl : jsSlice (statusFrame json)
      (((createVarIntAux 5 (1 + (createVarIntAux 5 json.length).length + json.length)).length
          + 1 + (createVarIntAux 5 json.length).length : Nat) : Int)
      ((((createVarIntAux 5 (1 + (createVarIntAux 5 json.length).length
          + json.length)).length + 1 + (createVarIntAux 5 json.length).length : Nat) : Int)
        + ((json.length : Nat) : Int))
      = json := by
    apply jsSlice_suffix _ ((createVarIntAux 5 (1 + (createVarIntAux 5 json.length).length
        + json.length) ++ [0]) ++ createVarIntAux 5 json.length) json
    · rw [statusFrame_eq json hj]
      simp [List.append_assoc]
    · simp [List.length_append]
      omega
    · push_cast
      omega
  have hsf : jsSliceFrom (statusFrame json)
      ((((createVarIntAux 5 (1 + (createVarIntAux 5 json.length).length
          + json.length)).length + 1 + (createVarIntAux 5 json.length).length : Nat) : Int)
        + ((json.length : Nat) : Int))
      = [] := by
    apply jsSliceFrom_nil
    push_cast
    omega
  rw [hsl, hsf]

theorem processChunk_pongFrame (payload info : List Nat) (hp : payload.length = 8)
    (st : JavaState) (chunk : List Nat) (h0 : st.outcome = none)
    (hs : st.serverInfo = some info) (hb : st.buffer ++ chunk = pongFrame payload) :
    processChunk st chunk = ⟨pongFrame payload, some info, some (.success info)⟩ := by
  have hplen : (pongFrame payload).length = 10 := by
    rw [pongFrame_eq payload hp]
    simp [hp]
  have hr1 : readVarInt (pongFrame payload) 0 = some ((9 : Int), 1) := by
    rw [pongFrame_eq payload hp]
    simpa using readVarInt_single 9 (by norm_num) (1 :: payload)
  have hr2 : readVarInt (pongFrame payload) 1 = some ((1 : Int), 2) := by
    rw [pongFrame_eq payload hp]
    have ha := readVarInt_append [9] (1 :: payload) 0
    simp only [List.length_cons, List.length_nil, List.cons_append, List.nil_append,
      Nat.add_zero] at ha
    rw [ha, readVarInt_single 1 (by norm_num) payload]
    simp
  obtain ⟨sbuf, sinfo, sout⟩ := st
  simp only at h0 hs hb
  subst h0
  subst hs
  simp only [processChunk, Option.isSome_none, Bool.false_eq_true, if_false, hb]
  simp only [hr1]
  rw [if_pos (by rw [hplen]; norm_num)]
  simp only [hr2]
  rw [if_neg (by norm_num)]
  simp only [if_true]

/-! ## Runs of the read loop -/

theorem runChunks_append (st : JavaState) (c1 c2 : List (List Nat)) :
    runChunks st (c1 ++ c2) = runChunks (runChunks st c1) c2 := by
  unfold runChunks
  rw [List.foldl_append]

theorem oneAtATime_append (l1 l2 : List Nat) :
    oneAtATime (l1 ++ l2) = oneAtATime l1 ++ oneAtATime l2 := by
  unfold oneAtATime
  rw [List.map_append]

theorem runChunks_bytes_wait (l : List Nat) :
    ∀ (st : JavaState), st.outcome = none →
      (∀ m, 0 < m → m ≤ l.length → waitsOn (st.buffer ++ l.take m) = true) →
      runChunks st (oneAtATime l) = { st with buffer := st.buffer ++ l } := by
  induction l with
  | nil =>
    intro st h0 hw
    simp [runChunks, oneAtATime]
  | cons b l' ih =>
    intro st h0 hw
    have hstep : processChunk st [b] = { st with buffer := st.buffer ++ [b] } :=
      processChunk_wait st [b] h0 (by
        have h1 := hw 1 (by norm_num) (by simp)
        simpa using h1)
    have hcons : runChunks st (oneAtATime (b :: l'))
        = runChunks (processChunk st [b]) (oneAtATime l') := rfl
    rw [hcons, hstep]
    rw [ih { st with buffer := st.buffer ++ [b] } (by simp [h0]) ?_]
    · simp
    · intro m hm hlen
      have h2 := hw (m + 1) (by omega) (by simp; omega)
      simpa [List.append_assoc] using h2

theorem runChunks_frame (F : List Nat) (st : JavaState)
    (h0 : st.outcome = none) (hbuf : st.buffer = [])
    (hlen : 1 ≤ F.length)
    (hw : ∀ m, 0 < m → m < F.length → waitsOn (F.take m) = true) :
    runChunks st (oneAtATime F)
      = processChunk { st with buffer := F.take (F.length - 1) }
          (F.drop (F.length - 1)) := by
  have hw1 : ∀ m, 0 < m → m ≤ (F.take (F.length - 1)).length →
      waitsOn (st.buffer ++ (F.take (F.length - 1)).take m) = true := by
    intro m hm hmle
    simp only [List.length_take] at hmle
    have h1 : (F.take (F.length - 1)).take m = F.take m := by
      rw [List.take_take]
      congr 1
      omega
    rw [hbuf]
    simp only [List.nil_append, h1]
    exact hw m hm (by omega)
  have hsplit : F = F.take (F.length - 1) ++ F.drop (F.length - 1) :=
    (List.take_append_drop _ _).symm
  conv_lhs => rw [hsplit]
  rw [oneAtATime_append, runChunks_append,
    runChunks_bytes_wait (F.take (F.length - 1)) st h0 hw1]
  have hd : (F.drop (F.length - 1)).length = 1 := by
    rw [List.length_drop]
    omega
  rcases hF : F.drop (F.length - 1) with _ | ⟨x, rest⟩
  · rw [hF] at hd; simp at hd
  · rcases rest with _ | ⟨y, t⟩
    · rw [hbuf]
      simp [runChunks, oneAtATime]
    · rw [hF] at hd; simp at hd

/-! ## Claim theorems -/

/-- Claim C3: feeding the bytes of a valid status-response frame and the
subsequent pong frame to the reassembly logic one byte at a time yields the
same parsed status record as feeding each frame in one chunk (the probe
resolves success with the same JSON slice); and after each append of a
byte that does not yet complete the status frame the parser waits without
error and without destructively mutating the buffered prefix. -/
theorem c3_partial_delivery (json payload : List Nat)
    (hj : json.length < 2 ^ 24) (hp : payload.length = 8) :
    runChunks initState (oneAtATime (statusFrame json ++ pongFrame payload))
        = runChunks initState [statusFrame json, pongFrame payload]
      ∧ runChunks initState [statusFrame json, pongFrame payload]
        = ⟨pongFrame payload, some json, some (.success json)⟩
      ∧ (∀ k, k < (statusFrame json).length →
          runChunks initState (oneAtATime ((statusFrame json).take k))
            = ⟨(statusFrame json).take k, none, none⟩) := by
  have hslen := statusFrame_length json hj
  have hjl := createVarIntAux_length_le 4 5 json.length (by omega)
    (by norm_num; omega) (le_refl _)
  have hS1 : 1 ≤ (statusFrame json).length := by omega
  have hplen10 : (pongFrame payload).length = 10 := by
    rw [pongFrame_eq payload hp]
    simp [hp]
  have hSrun : runChunks initState (oneAtATime (statusFrame json))
      = ⟨[], some json, none⟩ := by
    rw [runChunks_frame (statusFrame json) initState rfl rfl hS1
      (fun m _ hmlt => statusFrame_take_waits json hj m hmlt)]
    exact processChunk_statusFrame json hj _ _ rfl (List.take_append_drop _ _)
  have hPrun : runChunks (⟨[], some json, none⟩ : JavaState) (oneAtATime (pongFrame payload))
      = ⟨pongFrame payload, some json, some (.success json)⟩ := by
    rw [runChunks_frame (pongFrame payload) _ rfl rfl (by omega)
      (fun m _ hmlt => pongFrame_take_waits payload hp m hmlt)]
    exact processChunk_pongFrame payload json hp _ _ rfl rfl (List.take_append_drop _ _)
  have hchunk : runChunks initState [statusFrame json, pongFrame payload]
      = ⟨pongFrame payload, some json, some (.success json)⟩ := by
    have h1 : processChunk initState (statusFrame json) = ⟨[], some json, none⟩ :=
      processChunk_statusFrame json hj initState _ rfl (by simp [initState])
    have h2 := processChunk_pongFrame payload json hp (⟨[], some json, none⟩ : JavaState)
      (pongFrame payload) rfl rfl (by simp)
    show processChunk (processChunk initState (statusFrame json)) (pongFrame payload) = _
    rw [h1, h2]
  refine ⟨?_, hchunk, ?_⟩
  · rw [oneAtATime_append, runChunks_append, hSrun, hPrun, hchunk]
  · intro k hk
    have hwk : ∀ m, 0 < m → m ≤ ((statusFrame json).take k).length →
        waitsOn (initState.buffer ++ ((statusFrame json).take k).take m) = true := by
      intro m hm hmle
      simp only [List.length_take] at hmle
      have h1 : ((statusFrame json).take k).take m = (statusFrame json).take m := by
        rw [List.take_take]
        congr 1
        omega
      simp only [initState, List.nil_append, h1]
      exact statusFrame_take_waits json hj m (by omega)
    rw [runChunks_bytes_wait ((statusFrame json).take k) initState rfl hwk]
    simp [initState]

theorem c3_partial_delivery_witness :
    ([48] : List Nat).length < 2 ^ 24
      ∧ ([1, 2, 3, 4, 5, 6, 7, 8] : List Nat).length = 8
      ∧ (runChunks initState (oneAtATime (statusFrame [48] ++ pongFrame [1, 2, 3, 4, 5, 6, 7, 8]))
          = runChunks initState [statusFrame [48], pongFrame [1, 2, 3, 4, 5, 6, 7, 8]]
        ∧ runChunks initState [statusFrame [48], pongFrame [1, 2, 3, 4, 5, 6, 7, 8]]
          = ⟨pongFrame [1, 2, 3, 4, 5, 6, 7, 8], some [48], some (.success [48])⟩
        ∧ (∀ k, k < (statusFrame [48]).length →
            runChunks initState (oneAtATime ((statusFrame [48]).take k))
              = ⟨(statusFrame [48]).take k, none, none⟩)) :=
  ⟨by decide, by decide,
    c3_partial_delivery [48] [1, 2, 3, 4, 5, 6, 7, 8] (by decide) (by decide)⟩

/-- Claim C1 counterexample: while awaiting the pong (a status record is
already stored), a completely reassembled frame with id 2 neither raises
an error nor resolves the probe: the outcome stays pending and the frame
stays unconsumed in the buffer, contradicting the claimed
ProtocolError / socket close / Failure resolution. -/
theorem c1_counterexample :
    processChunk ⟨[], some [65], none⟩ [1, 2] = ⟨[1, 2], some [65], none⟩
      ∧ (processChunk ⟨[], some [65], none⟩ [1, 2]).outcome ≠ some JavaOutcome.failure := by
  decide

/-- Claim C1 (amended): when a complete frame with an id other than 0 and 1
has been reassembled, the read loop silently ignores it: the state is
unchanged except that the frame stays appended to the buffer, and no error
or terminal outcome is produced; a second status frame (id 0) arriving
while the probe awaits the pong is re-processed as a status response,
overwriting the stored record and leaving the probe pending. -/
theorem c1_unexpected_id_amended :
    (∀ (st : JavaState) (chunk : List Nat) (L pid : Int) (off off2 : Nat),
      st.outcome = none →
      readVarInt (st.buffer ++ chunk) 0 = some (L, off) →
      ((st.buffer ++ chunk).length : Int) ≥ (off : Int) + L →
      readVarInt (st.buffer ++ chunk) off = some (pid, off2) →
      pid ≠ 0 → pid ≠ 1 →
      processChunk st chunk = { st with buffer := st.buffer ++ chunk })
    ∧ (∀ (json info0 : List Nat) (st : JavaState) (chunk : List Nat),
      json.length < 2 ^ 24 →
      st.outcome = none → st.serverInfo = some info0 →
      st.buffer ++ chunk = statusFrame json →
      processChunk st chunk = ⟨[], some json, none⟩) := by
  constructor
  · intro st chunk L pid off off2 h0 hr1 hge hr2 hp0 hp1
    obtain ⟨sbuf, sinfo, sout⟩ := st
    simp only at h0 hr1 hge hr2 ⊢
    subst h0
    simp only [processChunk, Option.isSome_none, Bool.false_eq_true, if_false]
    simp only [hr1]
    rw [if_pos hge]
    simp only [hr2]
    rw [if_neg hp0, if_neg hp1]
  · intro json info0 st chunk hj h0 _hs hb
    exact processChunk_statusFrame json hj st chunk h0 hb

theorem c1_unexpected_id_amended_witness :
    (processChunk ⟨[], some [65], none⟩ [1, 2]
        = { (⟨[], some [65], none⟩ : JavaState) with buffer := ([] : List Nat) ++ [1, 2] })
      ∧ processChunk ⟨[], some [65], none⟩ (statusFrame [48]) = ⟨[], some [48], none⟩ :=
  ⟨c1_unexpected_id_amended.1 ⟨[], some [65], none⟩ [1, 2] 1 2 1 2 rfl (by decide)
      (by decide) (by decide) (by decide) (by decide),
    c1_unexpected_id_amended.2 [48] [65] ⟨[], some [65], none⟩ (statusFrame [48])
      (by decide) rfl rfl (by decide)⟩

/-- Claim C5: every probe settles at most once.  For the stream client,
once the outcome is settled, a further data chunk and a firing of the
deadline timer both leave the state untouched; for the datagram client, a
late or duplicate reply and a firing of the deadline timer likewise leave
a settled state untouched. -/
theorem c5_exactly_once :
    (∀ (st : JavaState) (chunk : List Nat), st.outcome.isSome = true →
      processChunk st chunk = st ∧ javaTimeout st = st)
    ∧ (∀ (bst : BedrockState) (msg : List Nat), bst.outcome.isSome = true →
      bedrockReceive bst msg = bst ∧ bedrockTimeout bst = bst) := by
  constructor
  · intro st chunk h
    constructor
    · unfold processChunk
      rw [if_pos h]
    · unfold javaTimeout
      rw [if_pos h]
  · intro bst msg h
    constructor
    · unfold bedrockReceive
      rw [if_pos h]
    · unfold bedrockTimeout
      rw [if_pos h]

theorem c5_exactly_once_witness :
    ((⟨[], none, some JavaOutcome.failure⟩ : JavaState).outcome.isSome = true
      ∧ processChunk ⟨[], none, some JavaOutcome.failure⟩ [0]
          = ⟨[], none, some JavaOutcome.failure⟩
      ∧ javaTimeout ⟨[], none, some JavaOutcome.failure⟩
          = ⟨[], none, some JavaOutcome.failure⟩)
    ∧ ((⟨some BedrockOutcome.failure⟩ : BedrockState).outcome.isSome = true
      ∧ bedrockReceive ⟨some BedrockOutcome.failure⟩ [0x1c]
          = ⟨some BedrockOutcome.failure⟩
      ∧ bedrockTimeout ⟨some BedrockOutcome.failure⟩ = ⟨some BedrockOutcome.failure⟩) :=
  ⟨⟨by decide, (c5_exactly_once.1 ⟨[], none, some JavaOutcome.failure⟩ [0] (by decide)).1,
      (c5_exactly_once.1 ⟨[], none, some JavaOutcome.failure⟩ [0] (by decide)).2⟩,
    ⟨by decide, (c5_exactly_once.2 ⟨some BedrockOutcome.failure⟩ [0x1c] (by decide)).1,
      (c5_exactly_once.2 ⟨some BedrockOutcome.failure⟩ [0x1c] (by decide)).2⟩⟩

/-- Claim C9: readVarInt is total with respect to buffer bounds: a byte
read past the end of the buffer behaves as 0 with the continuation bit
clear, so for every buffer and every offset at or past the end the call
returns value 0 and new offset o + 1 without raising. -/
theorem c9_readVarInt_total (b : List Nat) (o : Nat) (h : b.length ≤ o) :
    readVarInt b o = some (0, o + 1) :=
  readVarInt_oob b o h

theorem c9_readVarInt_total_witness :
    ([5, 6] : List Nat).length ≤ 7 ∧ readVarInt [5, 6] 7 = some (0, 8) :=
  ⟨by decide, c9_readVarInt_total [5, 6] 7 (by decide)⟩

/-- Claim C4 counterexample: decoding the encoding of the unsigned 32-bit
value 2 ^ 31 returns the signed 32-bit reinterpretation -2 ^ 31, not the
value itself, because the accumulator of readVarInt is a JavaScript
int32. -/
theorem c4_counterexample :
    readVarInt (createVarInt 2147483648) 0 = some (-2147483648, 5)
      ∧ readVarInt (createVarInt 2147483648) 0 ≠ some (2147483648, 5) := by
  decide

/-- Claim C4 (amended): for every unsigned 32-bit value v, createVarInt
emits between 1 and 5 bytes and readVarInt(createVarInt(v), 0) returns the
signed 32-bit reinterpretation of v (equal to v exactly when v < 2 ^ 31,
and to v - 2 ^ 32 otherwise) together with the number of bytes encoded;
createVarInt(-1) equals the fixed 5-byte wraparound form. -/
theorem c4_roundtrip_amended :
    (∀ v : Nat, v < 2 ^ 32 →
      1 ≤ (createVarInt ((v : Nat) : Int)).length
        ∧ (createVarInt ((v : Nat) : Int)).length ≤ 5
        ∧ readVarInt (createVarInt ((v : Nat) : Int)) 0
            = some (asInt32 v, (createVarInt ((v : Nat) : Int)).length)
        ∧ (v < 2 ^ 31 → asInt32 v = ((v : Nat) : Int))
        ∧ asInt32 v = ((v : Nat) : Int) - (if v < 2 ^ 31 then 0 else 2 ^ 32))
    ∧ createVarInt (-1) = [0xff, 0xff, 0xff, 0xff, 0x0f] := by
  constructor
  · intro v hv
    have hcoe : createVarInt ((v : Nat) : Int) = createVarIntAux 5 v := by
      unfold createVarInt
      rw [toUint32_coe v hv]
    have h5 : v < 128 ^ 5 := lt_of_lt_of_le hv (by norm_num)
    have hlen := createVarIntAux_length_le 4 5 v hv h5 (le_refl _)
    have henc := readVarInt_encode v hv []
    rw [List.append_nil] at henc
    rw [hcoe]
    refine ⟨by omega, by omega, henc, fun h31 => asInt32_small h31, ?_⟩
    unfold asInt32
    by_cases h31 : v < 2 ^ 31
    · rw [if_pos h31, if_pos h31]
      simp
    · rw [if_neg h31, if_neg h31]
  · decide

theorem c4_roundtrip_amended_witness :
    (2147483647 : Nat) < 2 ^ 32
      ∧ (1 ≤ (createVarInt ((2147483647 : Nat) : Int)).length
        ∧ (createVarInt ((2147483647 : Nat) : Int)).length ≤ 5
        ∧ readVarInt (createVarInt ((2147483647 : Nat) : Int)) 0
            = some (asInt32 2147483647, (createVarInt ((2147483647 : Nat) : Int)).length)
        ∧ ((2147483647 : Nat) < 2 ^ 31 → asInt32 2147483647 = ((2147483647 : Nat) : Int))
        ∧ asInt32 2147483647
            = ((2147483647 : Nat) : Int) - (if (2147483647 : Nat) < 2 ^ 31 then 0 else 2 ^ 32)) :=
  ⟨by decide, c4_roundtrip_amended.1 2147483647 (by decide)⟩

/-- Claim C7: the packet framer createPacket produces the total-length
prefix, then the id varint, then the payload, and connectToJavaServer
writes every frame through it; but the pingJava revision builds its frames
as varint(id) ++ varint(len(payload)) ++ payload, so its ping frame is
[1, 8, ...] where the claimed layout gives [9, 1, ...], and its status
request is [0, 0] where the framer gives [1, 0]: the writer of that
revision contradicts both the claimed layout and the length-first frames
its own reader parses. -/
theorem c7_framing_divergence :
    (∀ (id : Int) (data : List Nat),
      createPacket id data
        = createVarInt (((createVarInt id).length + data.length : Nat) : Int)
            ++ createVarInt id ++ data)
    ∧ createPacket 1 [1, 2, 3, 4, 5, 6, 7, 8] = [9, 1, 1, 2, 3, 4, 5, 6, 7, 8]
    ∧ pingJavaPingPacket = [1, 8, 1, 2, 3, 4, 5, 6, 7, 8]
    ∧ pingJavaPingPacket ≠ createPacket 1 [1, 2, 3, 4, 5, 6, 7, 8]
    ∧ pingJavaStatusRequestPacket = [0, 0]
    ∧ createPacket 0 [] = [1, 0] :=
  ⟨fun _ _ => rfl, by decide, by decide, by decide, by decide, by decide⟩

/-- Claim C2: evaluated at a description whose first child carries only the
underlined attribute, the flattener emits no reset before the second
child: the sibling check reads the absent property underline instead of
underlined, so the output is the underline sequence, then both texts,
with no reset between them, where the claim requires a reset. -/
theorem c2_reset_divergence :
    extractText c2exampleRoot = "§nab"
      ∧ extractText c2exampleRoot ≠ "§na§rb" := by
  constructor
  · decide
  · decide

/-- Claim C6 counterexample: a successfully parsed datagram reply whose
echoed timestamp is 1 while the arrival wall clock reads 0 yields a
success record with latency -1, which is negative. -/
theorem c6_counterexample :
    pingBedrockParse 0 [0x1c, 0, 0, 0, 0, 0, 0, 0, 1] = some ([[]], -1)
      ∧ (-1 : Int) < 0 := by
  decide

/-- Claim C6 (amended): the stream latency is the rounded difference of
the monotonic pong-arrival and ping-send readings and is a nonnegative
integer whenever arrival is not earlier than send; the datagram latency is
the arrival wall clock minus the timestamp echoed inside the reply, not a
locally recorded send time, and it is nonnegative exactly when the echoed
value does not exceed the arrival reading. -/
theorem c6_latency_amended :
    (∀ t1 t2 : ℚ, t1 ≤ t2 → 0 ≤ javaLatency t1 t2)
    ∧ (∀ (now : Int) (msg : List Nat) (r : List (List Nat)) (lat : Int),
        pingBedrockParse now msg = some (r, lat) →
        lat = now - (bedrockEchoedTime msg : Int)
          ∧ ((bedrockEchoedTime msg : Int) ≤ now → 0 ≤ lat)) := by
  constructor
  · intro t1 t2 h
    unfold javaLatency jsRound
    rw [Int.le_floor]
    push_cast
    linarith
  · intro now msg r lat h
    unfold pingBedrockParse at h
    by_cases hid : msg.getD 0 0 ≠ 0x1c
    · rw [if_pos hid] at h
      exact absurd h (by simp)
    · rw [if_neg hid] at h
      simp only [Option.some.injEq, Prod.mk.injEq] at h
      obtain ⟨_hr, hlat⟩ := h
      constructor
      · exact hlat.symm
      · intro hle
        rw [← hlat]
        omega

theorem c6_latency_amended_witness :
    ((0 : ℚ) ≤ 3 ∧ 0 ≤ javaLatency 0 3)
      ∧ (pingBedrockParse 5 [0x1c, 0, 0, 0, 0, 0, 0, 0, 1] = some ([[]], 4)
        ∧ ((4 : Int) = 5 - (bedrockEchoedTime [0x1c, 0, 0, 0, 0, 0, 0, 0, 1] : Int)
          ∧ ((bedrockEchoedTime [0x1c, 0, 0, 0, 0, 0, 0, 0, 1] : Int) ≤ 5 → (0 : Int) ≤ 4))) :=
  ⟨⟨by norm_num, c6_latency_amended.1 0 3 (by norm_num)⟩,
    ⟨by decide, c6_latency_amended.2 5 [0x1c, 0, 0, 0, 0, 0, 0, 0, 1] [[]] 4 (by decide)⟩⟩

/-- Claim C8: a failing service-record lookup, whether a thrown lookup
error or an empty record list, leaves the caller-supplied host and port in
place and produces no error value, while a usable record replaces them
with its target host and port. -/
theorem c8_srv_fallback :
    ∀ (host : String) (port : Nat) (r : String × Nat) (rs : List (String × Nat)),
      chooseEndpoint host port .err = (host, port)
        ∧ chooseEndpoint host port (.ok []) = (host, port)
        ∧ chooseEndpoint host port (.ok (r :: rs)) = r
        ∧ resolveSrv .err = none
        ∧ resolveSrv (.ok []) = none
        ∧ resolveSrv (.ok (r :: rs)) = some r := by
  intro host port r rs
  obtain ⟨name, p⟩ := r
  exact ⟨rfl, rfl, rfl, rfl, rfl, rfl⟩

/-- Claim C10: for every input error the classifier returns success false
and a code that is exactly one of timeout, invalid_domain,
connection_refused and offline; the initial unknown_error value is
unconditionally overwritten and never observable. -/
theorem c10_error_classifier :
    ∀ errCode : Option String,
      (createErrorResponse errCode).success = false
        ∧ ((createErrorResponse errCode).code = "timeout"
          ∨ (createErrorResponse errCode).code = "invalid_domain"
          ∨ (createErrorResponse errCode).code = "connection_refused"
          ∨ (createErrorResponse errCode).code = "offline")
        ∧ (createErrorResponse errCode).code ≠ "unknown_error" := by
  intro errCode
  simp only [createErrorResponse]
  split
  · exact ⟨rfl, Or.inl rfl, by decide⟩
  · split
    · exact ⟨rfl, Or.inr (Or.inl rfl), by decide⟩
    · split
      · exact ⟨rfl, Or.inr (Or.inr (Or.inl rfl)), by decide⟩
      · exact ⟨rfl, Or.inr (Or.inr (Or.inr rfl)), by decide⟩
